import Mathlib

/-!
Verification development for the ReWrap regex-composition layer
(`src/rex/rewrap.py`).  The Python class `ReWrap` keeps a registry of named
sub-patterns ("placeholders"), expands `[[:name:]]` tokens inside pattern
strings into uniquely named capture groups, delegates matching to the `re`
engine, and routes matched groups back to placeholders (callbacks and live
buffers).  The underlying regex engine is an external collaborator; it is
modelled here as an abstract `Engine` record, while every piece of logic that
lives in `rewrap.py` itself (registration, validation, token scanning and
expansion, match dispatch, buffer scoping, the engine-facing operations) is
embedded as executable Lean definitions translated from the source.
-/

namespace Rex

/-- Exception classes of `rewrap.py`: `PatternConflictError`,
`InvalidPatternError`, and the engine's `re.error` (which
`_process_pattern` raises itself for undefined placeholders).  Payload
strings carry the key datum of the Python exception message. -/
inductive RexError where
  | patternConflict (msg : String)
  | invalidPattern (pat : String)
  | reError (msg : String)
deriving DecidableEq, Repr

/-- Characters allowed after the first position of a Python identifier
(ASCII approximation of Unicode XID-continue; no claim depends on
non-ASCII identifiers). -/
def isIdentChar (c : Char) : Bool := c.isAlphanum || c = '_'

/-- Model of Python's `str.isidentifier` used by `add_pattern`:
nonempty, first character a letter or underscore, remaining characters
alphanumeric or underscore (ASCII approximation of XID start/continue). -/
def isidentifier (s : String) : Bool :=
  match s.data with
  | [] => false
  | c :: cs => (c.isAlpha || c = '_') && cs.all isIdentChar

/-- Decimal digit character, as produced by Python's `str` on a digit
value below ten. -/
def digitChar (n : Nat) : Char := Char.ofNat (48 + n)

/-- Fueled decimal rendering of a natural number (model of Python's
`str(count)` inside the f-string `f"{placeholder}_{count}"`).  Fuel
`n + 1` always suffices since the argument strictly decreases. -/
def natReprF : Nat → Nat → List Char
  | 0, _ => []
  | fuel + 1, n => if n < 10 then [digitChar n] else natReprF fuel (n / 10) ++ [digitChar (n % 10)]

/-- Decimal rendering of a natural number, model of Python's `str(n)`. -/
def natRepr (n : Nat) : String := String.mk (natReprF (n + 1) n)

/-- Per-rule callback as stored by `add_pattern`: transforms a captured
group value (`None` is possible for groups that did not participate, so
the domain and codomain are `Option String`). -/
def Callback := Option String → Option String

/-- One registry entry under a placeholder: the `(pattern, callback)`
pair appended by `add_pattern`. -/
abbrev Rule := String × Option Callback

/-- The `_custom_patterns` dict: insertion-ordered association list from
placeholder names to their rule lists. -/
abbrev Registry := List (String × List Rule)

/-- Dict lookup `self._custom_patterns[k]` (also deciding membership
`k in self._custom_patterns`). -/
def lookupReg (reg : Registry) (k : String) : Option (List Rule) :=
  match reg.find? (fun e => e.1 == k) with
  | some e => some e.2
  | none => none

/-- The mutation `self._custom_patterns.setdefault(ph, []).append(r)`:
append to an existing key's list, else insert the key at the end with a
one-element list (Python dicts keep insertion order). -/
def registryAppend (reg : Registry) (ph : String) (r : Rule) : Registry :=
  if reg.any (fun e => e.1 == ph) then
    reg.map (fun e => if e.1 == ph then (e.1, e.2 ++ [r]) else e)
  else
    reg ++ [(ph, [r])]

/-- The local `placeholder_counts` dict of `_process_pattern`, which is
read only through `get(placeholder, 0)` and written only through
keyed assignment, modelled as the function it denotes; `countsUpd` is
the assignment `placeholder_counts[placeholder] = count`. -/
def countsUpd (c : String → Nat) (k : String) (v : Nat) : String → Nat :=
  fun q => if q == k then v else c q

/-- Scanner for the token regex `\[\[:(.*?)\:\]\]` used by
`_process_pattern`: starting right after a literal `[[:`, lazily consume
capture characters (`.` does not match a newline) up to the first `:]]`.
Returns the captured name and the text after the token, or `none` when no
`:]]` follows on the same line. -/
def takeName : List Char → Option (List Char × List Char)
  | ':' :: ']' :: ']' :: rest => some ([], rest)
  | '\n' :: _ => none
  | c :: cs =>
    match takeName cs with
    | some (n, r) => some (c :: n, r)
    | none => none
  | [] => none

/-- Whether a `[[:name:]]` token matches exactly at the head of the text;
yields the captured name and the remaining text. -/
def tokAt (l : List Char) : Option (List Char × List Char) :=
  match l with
  | '[' :: '[' :: ':' :: rest => takeName rest
  | _ => none

/-- Leftmost match of the token regex in the text, as found by `re.sub`:
returns (text before the token, captured name, text after the token). -/
def findTok : List Char → Option (List Char × List Char × List Char)
  | [] => none
  | c :: cs =>
    match tokAt (c :: cs) with
    | some (n, r) => some ([], n, r)
    | none =>
      match findTok cs with
      | some (p, n, r) => some (c :: p, n, r)
      | none => none

/-- Names of all `[[:name:]]` tokens of a text in scan order, ignoring
the registry (used to state which placeholder references a pattern
contains).  Fueled; fuel `length + 1` suffices. -/
def scanNamesF : Nat → List Char → List String
  | 0, _ => []
  | fuel + 1, s =>
    match findTok s with
    | none => []
    | some (_, n, r) => String.mk n :: scanNamesF fuel r

/-- Names of all `[[:name:]]` tokens of a pattern in scan order. -/
def scanNames (pattern : String) : List String :=
  scanNamesF (pattern.data.length + 1) pattern.data

/-- Body of the replacement for one placeholder occurrence: the
alternation `"|".join(...)` of the placeholder's sub-patterns, or the
never-matching `(?!.)` when the rule list is empty. -/
def combinedOf (rules : List Rule) : String :=
  if rules.isEmpty then "(?!.)" else String.intercalate "|" (rules.map (fun r => r.1))

/-- Core of `_process_pattern`: repeatedly find the leftmost `[[:name:]]`
token and replace it with a named capture group `(?P<name_k>...)`, where
`k` counts this placeholder's occurrences so far (`replace_placeholder`
in the source).  An unregistered name raises `re.error`.  Besides the
rewritten text it returns the list of `(placeholder, group_name)` pairs
it synthesized, recording the source's `group_name` assignments in
order.  Fueled; fuel `length + 1` suffices since every replacement step
strictly shortens the remaining text. -/
def expandCoreF (reg : Registry) : Nat → (String → Nat) → List Char →
    Except RexError (List Char × List (String × String))
  | 0, _, _ => .error (.reError "fuel")
  | fuel + 1, counts, s =>
    match findTok s with
    | none => .ok (s, [])
    | some (pre, nameL, rest) =>
      let ph := String.mk nameL
      match lookupReg reg ph with
      | none => .error (.reError ph)
      | some rules =>
        let count := counts ph + 1
        let gname := ph ++ "_" ++ natRepr count
        let repl := "(?P<" ++ gname ++ ">" ++ combinedOf rules ++ ")"
        match expandCoreF reg fuel (countsUpd counts ph count) rest with
        | .ok (out, tr) => .ok (pre ++ repl.data ++ out, (ph, gname) :: tr)
        | .error e => .error e

/-- Model of `_process_pattern(pattern)`: expand every placeholder token,
returning the engine-ready pattern together with the synthesized
`(placeholder, group name)` pairs, or the raised error.  The occurrence
counters start empty (`get` yields 0 for every placeholder). -/
def processPattern (reg : Registry) (pattern : String) :
    Except RexError (String × List (String × String)) :=
  match expandCoreF reg (pattern.data.length + 1) (fun _ => 0) pattern.data with
  | .ok (out, tr) => .ok (String.mk out, tr)
  | .error e => .error e

/-- A completed engine match: `group()` (the overall matched text) and
`groupdict()` — all named groups of the compiled pattern in definition
order, with `none` for groups that did not participate in the match
(Python's `groupdict` default). -/
structure MatchRes where
  matched : String
  groupdict : List (String × Option String)

/-- The external regular-expression engine (`re`), the out-of-scope
collaborator of the spec, abstracted behind the operations `rewrap.py`
uses: compilability of a pattern, `search`, `match` (anchored at the
start), `finditer`, and `sub`.  Flag arguments are passed through
opaquely in the source and no claim varies them, so they are fixed to
their defaults here. -/
structure Engine where
  compileOk : String → Bool
  searchE : String → String → Option MatchRes
  matchE : String → String → Option MatchRes
  finditerE : String → String → List MatchRes
  subE : String → String → String → Nat → String

/-- Mutable state of a `ReWrap` instance: the `_custom_patterns`
registry, the `buffers` dict (name → ordered log of
`(placeholder, value)` entries), and `_buffer`, the currently active
buffer.  In the source `_buffer` holds a reference to a list stored in
`buffers`; it is modelled by that buffer's name. -/
structure RWState where
  customPatterns : Registry
  buffers : List (String × List (String × Option String))
  activeBuffer : Option String

/-- State of a freshly constructed `ReWrap()`. -/
def initState : RWState := { customPatterns := [], buffers := [], activeBuffer := none }

/-- The second argument of `add_pattern`, which accepts a single
sub-pattern string or a list of them. -/
inductive Replacement where
  | single (p : String)
  | list (ps : List String)

/-- Model of `_validate_pattern`: try to compile the sub-pattern with
the engine; failure means `InvalidPatternError`. -/
def validatePattern (e : Engine) (p : String) : Option RexError :=
  if e.compileOk p then none else some (.invalidPattern p)

/-- Registration loop of `add_pattern` over a list of sub-patterns: each
is validated and then appended, so an invalid sub-pattern aborts the
call by raising, leaving the already-appended ones in the registry (the
source mutates `_custom_patterns` in place between validations). -/
def addPatternList (e : Engine) (ph : String) (cb : Option Callback) :
    Registry → List String → Registry × Option RexError
  | reg, [] => (reg, none)
  | reg, p :: ps =>
    if e.compileOk p then addPatternList e ph cb (registryAppend reg ph (p, cb)) ps
    else (reg, some (.invalidPattern p))

/-- Model of `ReWrap.add_pattern(placeholder, replacement, callback)`.
Returns the state after the call together with the raised exception, if
any (a raised exception leaves in place whatever mutations already
happened). -/
def add_pattern (e : Engine) (s : RWState) (ph : String) (repl : Replacement)
    (cb : Option Callback) : RWState × Option RexError :=
  if !isidentifier ph then (s, some (.patternConflict ph))
  else
    match repl with
    | .list [] => (s, some (.invalidPattern ph))
    | .list ps =>
      let (reg, err) := addPatternList e ph cb s.customPatterns ps
      ({ s with customPatterns := reg }, err)
    | .single p =>
      match validatePattern e p with
      | some err => (s, some err)
      | none => ({ s with customPatterns := registryAppend s.customPatterns ph (p, cb) }, none)

/-- The `reserved_sequences` class attribute.  (The source never
consults it in `add_pattern`; every entry contains a backslash and so
already fails the identifier check.) -/
def reservedSequences : List String :=
  ["\\d", "\\w", "\\s", "\\b", "\\B", "\\D", "\\S", "\\W", "\\A", "\\Z",
   "\\t", "\\r", "\\n", "\\f", "\\v"]

/-- Model of `ReWrap.add_buffer(buffer_name)`:
`self.buffers[buffer_name] = []` (replacing any existing entry). -/
def add_buffer (s : RWState) (name : String) : RWState :=
  if s.buffers.any (fun e => e.1 == name) then
    { s with buffers := s.buffers.map (fun e => if e.1 == name then (e.1, []) else e) }
  else
    { s with buffers := s.buffers ++ [(name, [])] }

/-- Entry to the `BUFFER(buffer_name)` context manager:
`self.buffers.setdefault(buffer_name, [])`, remember the previous
`_buffer`, and make the named buffer current.  Returns the new state and
the saved previous buffer. -/
def bufferEnter (s : RWState) (name : String) : RWState × Option String :=
  let bufs := if s.buffers.any (fun e => e.1 == name) then s.buffers else s.buffers ++ [(name, [])]
  ({ s with buffers := bufs, activeBuffer := some name }, s.activeBuffer)

/-- Exit from the `BUFFER` context manager (the `finally` block):
restore the saved previous buffer, on normal exit and when an exception
propagates alike. -/
def bufferExit (s : RWState) (saved : Option String) : RWState :=
  { s with activeBuffer := saved }

/-- A whole `with self.BUFFER(name): body` block, where the body is an
arbitrary state transformation that may also raise; the `finally` block
restores the saved buffer on both exit paths and the exception is then
re-raised. -/
def withBuffer (s : RWState) (name : String) (body : RWState → RWState × Option RexError) :
    RWState × Option RexError :=
  let (s1, saved) := bufferEnter s name
  let (s2, exn) := body s1
  (bufferExit s2 saved, exn)

/-- Model of `ReWrap.get_buffer(buffer_name)`:
`self.buffers.get(buffer_name, [])`. -/
def get_buffer (s : RWState) (name : String) : List (String × Option String) :=
  match s.buffers.find? (fun e => e.1 == name) with
  | some e => e.2
  | none => []

/-- Placeholder name recovered from a synthesized group name by
`group_name.rsplit('_', 1)[0]`: drop the last underscore and what
follows it; a name with no underscore is returned whole. -/
def stripGroupSuffix (g : String) : String :=
  match (g.data.reverse.dropWhile (fun c => c != '_')) with
  | [] => g
  | _ :: rest => String.mk rest.reverse

/-- The callback loop of `_handle_match`: walk the placeholder's rules
in registration order and apply the first rule's callback that is not
`None` to the value, stopping there; with no callback anywhere the value
is returned unchanged. -/
def applyCbLoop : List Rule → Option String → Option String
  | [], v => v
  | (_, none) :: rest, v => applyCbLoop rest v
  | (_, some cb) :: _, v => cb v

/-- Processing of one `groupdict` item by `_handle_match`: recover the
placeholder by stripping the occurrence suffix and run the callback
loop over `self._custom_patterns.get(placeholder, [])`. -/
def dispatchEntry (reg : Registry) (g : String × Option String) : String × Option String :=
  let ph := stripGroupSuffix g.1
  (ph, applyCbLoop ((lookupReg reg ph).getD []) g.2)

/-- Append one dispatched `(placeholder, value)` entry to the active
buffer, if one is set (`if self._buffer is not None`). -/
def appendActive (s : RWState) (entry : String × Option String) : RWState :=
  match s.activeBuffer with
  | none => s
  | some b =>
    { s with buffers := s.buffers.map (fun e => if e.1 == b then (e.1, e.2 ++ [entry]) else e) }

/-- Model of `ReWrap._handle_match(match, callback)`: process every item
of the match's `groupdict` in order, dispatching each to the active
buffer.  The trailing `callback(match)` call (the `post` hook) invokes
an external function and touches no `ReWrap` state, so it has no
representation in the state. -/
def handleMatch (s : RWState) (m : MatchRes) : RWState :=
  m.groupdict.foldl (fun st g => appendActive st (dispatchEntry st.customPatterns g)) s

/-- Model of `ReWrap._compile`: expand the pattern (which may raise for
an undefined placeholder), then compile it with the engine; the compiled
regex is represented by its processed pattern text. -/
def compileRW (e : Engine) (s : RWState) (pattern : String) : Except RexError String :=
  match processPattern s.customPatterns pattern with
  | .error err => .error err
  | .ok (p, _) => if e.compileOk p then .ok p else .error (.reError p)

/-- Model of `ReWrap.search(pattern, string)`: compile, search, and on a
match dispatch it before returning.  The `pre` hook only rewrites the
input string before matching and the `post` hook is external; neither
reads or writes `ReWrap` state, so both are omitted. -/
def search (e : Engine) (s : RWState) (pattern string : String) :
    RWState × Except RexError (Option MatchRes) :=
  match compileRW e s pattern with
  | .error err => (s, .error err)
  | .ok p =>
    match e.searchE p string with
    | some m => (handleMatch s m, .ok (some m))
    | none => (s, .ok none)

/-- Model of `ReWrap.match(pattern, string)` (the source method is named
`match`, a Lean keyword): like `search` but anchored at the start. -/
def matchStart (e : Engine) (s : RWState) (pattern string : String) :
    RWState × Except RexError (Option MatchRes) :=
  match compileRW e s pattern with
  | .error err => (s, .error err)
  | .ok p =>
    match e.matchE p string with
    | some m => (handleMatch s m, .ok (some m))
    | none => (s, .ok none)

/-- Model of `ReWrap.findall(pattern, string)`: iterate all matches,
dispatching each, and collect `match.group()` for each. -/
def findall (e : Engine) (s : RWState) (pattern string : String) :
    RWState × Except RexError (List String) :=
  match compileRW e s pattern with
  | .error err => (s, .error err)
  | .ok p =>
    let ms := e.finditerE p string
    (ms.foldl handleMatch s, .ok (ms.map (fun m => m.matched)))

/-- Model of `ReWrap.finditer(pattern, string)`: the source tees the
engine's iterator, eagerly dispatches every match in a loop, and only
then returns the untouched copy to the caller; so the returned state
already reflects the dispatch of every match, whether or not the caller
ever consumes the returned sequence. -/
def finditer (e : Engine) (s : RWState) (pattern string : String) :
    RWState × Except RexError (List MatchRes) :=
  match compileRW e s pattern with
  | .error err => (s, .error err)
  | .ok p =>
    let ms := e.finditerE p string
    (ms.foldl handleMatch s, .ok ms)

/-- Model of `ReWrap.sub(pattern, repl, string, count)`: compile and
delegate to the engine; no dispatch. -/
def sub (e : Engine) (s : RWState) (pattern repl string : String) (count : Nat) :
    RWState × Except RexError String :=
  match compileRW e s pattern with
  | .error err => (s, .error err)
  | .ok p => (s, .ok (e.subE p repl string count))

/-- Model of `ReWrap.compile(pattern)`: proxy to the engine's compile
with placeholder processing; the compiled object is represented by the
processed pattern text. -/
def compileOp (e : Engine) (s : RWState) (pattern : String) :
    RWState × Except RexError String :=
  (s, compileRW e s pattern)

/-- Nested data as traversed by `recursive_search`: Python strings,
lists and dicts (and anything else, which the source ignores).  List and
dict spines are inlined as constructors so that the traversal below is
structurally recursive. -/
inductive PyData where
  | str (s : String)
  | listNil
  | listCons (hd tl : PyData)
  | dictNil
  | dictCons (key : String) (val tl : PyData)
  | other

/-- Model of `ReWrap.recursive_search(pattern, data)`: a string is
searched (with dispatch, via `search`); a list is recursed elementwise
in order; a dict is recursed into its values in iteration order, keys
never searched; anything else contributes nothing.  Results are
concatenated; a raised error propagates with the state reached so
far. -/
def recursive_search (e : Engine) (pattern : String) :
    PyData → RWState → RWState × Except RexError (List MatchRes)
  | .str t, s =>
    match search e s pattern t with
    | (s', .error err) => (s', .error err)
    | (s', .ok (some m)) => (s', .ok [m])
    | (s', .ok none) => (s', .ok [])
  | .listNil, s => (s, .ok [])
  | .listCons hd tl, s =>
    match recursive_search e pattern hd s with
    | (s1, .error err) => (s1, .error err)
    | (s1, .ok ms1) =>
      match recursive_search e pattern tl s1 with
      | (s2, .error err) => (s2, .error err)
      | (s2, .ok ms2) => (s2, .ok (ms1 ++ ms2))
  | .dictNil, s => (s, .ok [])
  | .dictCons _ v tl, s =>
    match recursive_search e pattern v s with
    | (s1, .error err) => (s1, .error err)
    | (s1, .ok ms1) =>
      match recursive_search e pattern tl s1 with
      | (s2, .error err) => (s2, .error err)
      | (s2, .ok ms2) => (s2, .ok (ms1 ++ ms2))
  | .other, s => (s, .ok [])

/-- An engine that compiles everything and never matches; used to
instantiate theorems whose conclusion does not depend on engine
behavior. -/
def engineTriv : Engine :=
  { compileOk := fun _ => true
    searchE := fun _ _ => none
    matchE := fun _ _ => none
    finditerE := fun _ _ => []
    subE := fun _ _ string _ => string }

/-- An engine mirroring `re` on the inputs of the `add_pattern`
counterexample: every sub-pattern compiles except the malformed
`[unclosed` (which `re.compile` rejects). -/
def engineC1 : Engine :=
  { compileOk := fun p => p != "[unclosed"
    searchE := fun _ _ => none
    matchE := fun _ _ => none
    finditerE := fun _ _ => []
    subE := fun _ _ string _ => string }

/-- The registry of the C2 counterexample: placeholders `a` and `b`
with bodies `x` and `y` and no callbacks. -/
def regC2 : Registry := [("a", [("x", none)]), ("b", [("y", none)])]

/-- An engine mirroring `re` on the inputs of the C2 counterexample:
searching `(?P<a_1>x)|(?P<b_1>y)` in `"y"` succeeds through the second
alternative, so `groupdict()` maps the non-participating group `a_1` to
`None` and `b_1` to `"y"`. -/
def engineC2 : Engine :=
  { compileOk := fun _ => true
    searchE := fun p string =>
      if p == "(?P<a_1>x)|(?P<b_1>y)" && string == "y" then
        some { matched := "y", groupdict := [("a_1", none), ("b_1", some "y")] }
      else none
    matchE := fun _ _ => none
    finditerE := fun _ _ => []
    subE := fun _ _ string _ => string }

/-- State of the C2 counterexample: registry `regC2` with the buffer
`buf` entered and active. -/
def stateC2 : RWState :=
  (bufferEnter { initState with customPatterns := regC2 } "buf").1

/-- A concrete callback for the C6 witness: wraps the value in
brackets. -/
def cbBrack : Callback := fun v => v.map (fun t => "<" ++ t ++ ">")

/-- A second concrete callback for the C6 witness, never reached because
it is registered after `cbBrack`. -/
def cbShout : Callback := fun v => v.map (fun t => t ++ "!")

/-- The registry of the C8 witness: placeholder `d` with body `x`. -/
def regC8 : Registry := [("d", [("x", none)])]

/-- State of the C8 witness: registry `regC8` with buffer `buf` entered
and active. -/
def stateC8 : RWState :=
  (bufferEnter { initState with customPatterns := regC8 } "buf").1

/-- A match of `(?P<d_1>x)` on one occurrence of `x`, as `re` produces
it. -/
def matchC8 : MatchRes := { matched := "x", groupdict := [("d_1", some "x")] }

/-- An engine mirroring `re` on the inputs of the C8 witness: the
pattern `(?P<d_1>x)` matches twice in `"x x"`. -/
def engineC8 : Engine :=
  { compileOk := fun _ => true
    searchE := fun _ _ => none
    matchE := fun _ _ => none
    finditerE := fun p string =>
      if p == "(?P<d_1>x)" && string == "x x" then [matchC8, matchC8] else []
    subE := fun _ _ string _ => string }

/-- The registry of the C9 instance: the `email` placeholder of the
spec's example, with the source's email sub-pattern and no callback. -/
def regEmail : Registry := [("email", [("[\\w\\.-]+@[\\w\\.-]+\\.\\w+", none)])]

/-- Expansion of `[[:email:]]` under `regEmail`, as computed by
`_process_pattern`. -/
def emailExpanded : String := "(?P<email_1>[\\w\\.-]+@[\\w\\.-]+\\.\\w+)"

/-- The nested mapping of the C9 instance:
`{"level1": [{"level2": {"email": "deep@example.com"}}]}`. -/
def nestedData : PyData :=
  .dictCons "level1"
    (.listCons
      (.dictCons "level2"
        (.dictCons "email" (.str "deep@example.com") .dictNil)
        .dictNil)
      .listNil)
    .dictNil

/-- The match `re.search` produces for `emailExpanded` on
`"deep@example.com"`: the whole string, captured by group `email_1`. -/
def emailMatch : MatchRes :=
  { matched := "deep@example.com", groupdict := [("email_1", some "deep@example.com")] }

/-- An engine mirroring `re` on the single string the C9 instance
searches. -/
def engineC9 : Engine :=
  { compileOk := fun _ => true
    searchE := fun p string =>
      if p == emailExpanded && string == "deep@example.com" then some emailMatch else none
    matchE := fun _ _ => none
    finditerE := fun _ _ => []
    subE := fun _ _ string _ => string }

/-- State of the C9 witness: a fresh instance with the `email`
placeholder registered. -/
def stateC9 : RWState := { initState with customPatterns := regEmail }

/-- Numeric value of a decimal digit character. -/
def digitVal (c : Char) : Nat := c.toNat - 48

/-- Value of a decimal digit string, used to invert `natReprF`. -/
def valOf (l : List Char) : Nat := l.foldl (fun a c => 10 * a + digitVal c) 0

/-- The numbering discipline of `_process_pattern`, relative to the
occurrence counters in force when expansion starts: each synthesized
entry names its group `placeholder ++ "_" ++ str(count + 1)` for the
placeholder's current count, and the remaining entries are numbered with
that placeholder's count bumped — so starting from all-zero counters the
k-th occurrence of placeholder `p` is named `p_k`. -/
def Numbered : (String → Nat) → List (String × String) → Prop
  | _, [] => True
  | c, (ph, g) :: tr =>
    g = ph ++ "_" ++ natRepr (c ph + 1) ∧ Numbered (countsUpd c ph (c ph + 1)) tr

/-- Registry invariant of C10: every placeholder present in
`_custom_patterns` owns a non-empty rule list. -/
def RegInv (reg : Registry) : Prop := ∀ entry ∈ reg, entry.2 ≠ []

/-- Alternation body without the empty-rule-list guard: always
`"|".join(...)`. -/
def combinedNE (rules : List Rule) : String :=
  String.intercalate "|" (rules.map (fun r => r.1))

/-- Variant of `expandCoreF` whose replacement body is always the plain
alternation — i.e. with the `(?!.)` branch for an empty rule list
removed.  Agreeing with `expandCoreF` under `RegInv` shows that branch
unreachable. -/
def expandCoreNEF (reg : Registry) : Nat → (String → Nat) → List Char →
    Except RexError (List Char × List (String × String))
  | 0, _, _ => .error (.reError "fuel")
  | fuel + 1, counts, s =>
    match findTok s with
    | none => .ok (s, [])
    | some (pre, nameL, rest) =>
      let ph := String.mk nameL
      match lookupReg reg ph with
      | none => .error (.reError ph)
      | some rules =>
        let count := counts ph + 1
        let gname := ph ++ "_" ++ natRepr count
        let repl := "(?P<" ++ gname ++ ">" ++ combinedNE rules ++ ")"
        match expandCoreNEF reg fuel (countsUpd counts ph count) rest with
        | .ok (out, tr) => .ok (pre ++ repl.data ++ out, (ph, gname) :: tr)
        | .error e => .error e

/-- `_process_pattern` with the empty-rule-list branch removed. -/
def processPatternNE (reg : Registry) (pattern : String) :
    Except RexError (String × List (String × String)) :=
  match expandCoreNEF reg (pattern.data.length + 1) (fun _ => 0) pattern.data with
  | .ok (out, tr) => .ok (String.mk out, tr)
  | .error e => .error e

/-- States reachable from a fresh `ReWrap()` through the public API
(registration, buffer management, and the engine-facing operations),
with arbitrary arguments and an arbitrary engine at every step. -/
inductive Reachable : RWState → Prop where
  | init : Reachable initState
  | stepAddPattern (s : RWState) (e : Engine) (ph : String) (repl : Replacement)
      (cb : Option Callback) : Reachable s → Reachable (add_pattern e s ph repl cb).1
  | stepAddBuffer (s : RWState) (name : String) :
      Reachable s → Reachable (add_buffer s name)
  | stepBufferEnter (s : RWState) (name : String) :
      Reachable s → Reachable (bufferEnter s name).1
  | stepBufferExit (s : RWState) (saved : Option String) :
      Reachable s → Reachable (bufferExit s saved)
  | stepSearch (s : RWState) (e : Engine) (pattern string : String) :
      Reachable s → Reachable (search e s pattern string).1
  | stepMatch (s : RWState) (e : Engine) (pattern string : String) :
      Reachable s → Reachable (matchStart e s pattern string).1
  | stepFindall (s : RWState) (e : Engine) (pattern string : String) :
      Reachable s → Reachable (findall e s pattern string).1
  | stepFinditer (s : RWState) (e : Engine) (pattern string : String) :
      Reachable s → Reachable (finditer e s pattern string).1
  | stepSub (s : RWState) (e : Engine) (pattern repl string : String) (count : Nat) :
      Reachable s → Reachable (sub e s pattern repl string count).1
  | stepCompile (s : RWState) (e : Engine) (pattern : String) :
      Reachable s → Reachable (compileOp e s pattern).1
  | stepRecursive (s : RWState) (e : Engine) (pattern : String) (d : PyData) :
      Reachable s → Reachable (recursive_search e pattern d s).1

/-- A state built by one registration, used to instantiate C10. -/
def stateC10 : RWState := (add_pattern engineTriv initState "a" (.single "x") none).1

/-- Registration over a list validates and appends one sub-pattern at a
time, so when a failure occurs the sub-patterns before the first failing
one are already in the registry and the rest are never reached. -/
theorem addPatternList_spec (e : Engine) (ph : String) (cb : Option Callback) :
    ∀ (ps : List String) (reg : Registry), (∃ p ∈ ps, e.compileOk p = false) →
      addPatternList e ph cb reg ps =
        ((ps.takeWhile (fun p => e.compileOk p)).foldl
            (fun r p => registryAppend r ph (p, cb)) reg,
         some (.invalidPattern ((ps.dropWhile (fun p => e.compileOk p)).headD ""))) := by
  intro ps
  induction ps with
  | nil => intro reg h; simp at h
  | cons p ps ih =>
    intro reg h
    by_cases hc : e.compileOk p
    · have htail : ∃ q ∈ ps, e.compileOk q = false := by
        rcases h with ⟨q, hq, hqc⟩
        rcases List.mem_cons.mp hq with rfl | hmem
        · rw [hc] at hqc; cases hqc
        · exact ⟨q, hmem, hqc⟩
      simp [addPatternList, hc, ih _ htail]
    · have hc' : e.compileOk p = false := by simpa using hc
      simp [addPatternList, hc']

/-- C1 (amended): when the placeholder is a valid identifier and some
sub-pattern of the list fails to compile, `add_pattern` raises
`InvalidPatternError` naming the first failing sub-pattern, but the
sub-patterns preceding it are appended to the placeholder's rule list
(only a failure at the head leaves the registry unchanged). -/
theorem claim_C1_amended :
    ∀ (e : Engine) (s : RWState) (ph : String) (cb : Option Callback) (ps : List String),
      isidentifier ph = true →
      (∃ p ∈ ps, e.compileOk p = false) →
      add_pattern e s ph (.list ps) cb =
        ({ s with customPatterns := ((ps.takeWhile (fun p => e.compileOk p)).foldl
            (fun reg p => registryAppend reg ph (p, cb)) s.customPatterns) },
         some (.invalidPattern ((ps.dropWhile (fun p => e.compileOk p)).headD ""))) := by
  intro e s ph cb ps hid hbad
  cases ps with
  | nil => simp at hbad
  | cons p ps =>
    rw [add_pattern]
    simp only [hid, Bool.not_true, Bool.false_eq_true, if_false]
    rw [addPatternList_spec e ph cb (p :: ps) s.customPatterns hbad]
    simp

/-- C1 (witness): a two-element list whose second sub-pattern is
malformed raises `InvalidPatternError` with the first sub-pattern
already registered. -/
theorem claim_C1_witness :
    add_pattern engineC1 initState "p" (.list ["a", "[unclosed"]) none =
      ({ initState with customPatterns := [("p", [("a", none)])] },
       some (.invalidPattern "[unclosed")) := by
  have h := claim_C1_amended engineC1 initState "p" none ["a", "[unclosed"]
    (by decide) ⟨"[unclosed", by decide, by rfl⟩
  simpa using h

/-- C1 (counterexample to the claim as stated): registering `p` with
`["a", "[unclosed"]` raises `InvalidPatternError`, yet the registry is
not left unchanged — `p` now owns the rule list `[("a", none)]` where it
was absent before the call. -/
theorem claim_C1_counterexample :
    (add_pattern engineC1 initState "p" (.list ["a", "[unclosed"]) none).2 =
      some (.invalidPattern "[unclosed") ∧
    lookupReg initState.customPatterns "p" = none ∧
    lookupReg (add_pattern engineC1 initState "p" (.list ["a", "[unclosed"]) none).1.customPatterns "p" =
      some [("a", none)] :=
  ⟨rfl, rfl, rfl⟩

/-- C3: every reserved built-in escape token contains a backslash and so
fails the identifier check, making `add_pattern` raise
`PatternConflictError` and leave the state untouched, whatever the
replacement and callback. -/
theorem claim_C3 :
    ∀ name ∈ reservedSequences, ∀ (e : Engine) (s : RWState) (repl : Replacement)
      (cb : Option Callback),
      add_pattern e s name repl cb = (s, some (.patternConflict name)) := by
  intro name hname e s repl cb
  have hid : isidentifier name = false := by
    have hall : reservedSequences.all (fun n => !isidentifier n) = true := by decide
    simpa using List.all_eq_true.mp hall name hname
  simp [add_pattern, hid]

/-- C3 (witness): registering the reserved token `\d` fails with
`PatternConflictError` and adds no rule. -/
theorem claim_C3_witness :
    ("\\d" ∈ reservedSequences) ∧
    add_pattern engineTriv initState "\\d" (.single "x") none =
      (initState, some (.patternConflict "\\d")) :=
  ⟨by decide, claim_C3 "\\d" (by decide) engineTriv initState (.single "x") none⟩

/-- C7: entering the `BUFFER` context makes the named buffer the active
dispatch target (creating it if needed), and the whole `with` block —
for an arbitrary body, so under arbitrary nesting, and whether the body
returns normally or raises — restores exactly the previously active
buffer. -/
theorem claim_C7 :
    ∀ (s : RWState) (name : String) (body : RWState → RWState × Option RexError),
      (bufferEnter s name).1.activeBuffer = some name ∧
      ((bufferEnter s name).1.buffers.any (fun e => e.1 == name) = true) ∧
      (withBuffer s name body).1.activeBuffer = s.activeBuffer ∧
      (withBuffer s name body).2 = (body (bufferEnter s name).1).2 := by
  intro s name body
  refine ⟨rfl, ?_, rfl, rfl⟩
  show (if s.buffers.any (fun e => e.1 == name) then s.buffers
        else s.buffers ++ [(name, [])]).any (fun e => e.1 == name) = true
  by_cases h : s.buffers.any (fun e => e.1 == name)
  · simp [h]
  · simp [h]

theorem appendActive_customPatterns (s : RWState) (entry : String × Option String) :
    (appendActive s entry).customPatterns = s.customPatterns := by
  cases h : s.activeBuffer <;> simp [appendActive, h]

theorem appendActive_activeBuffer (s : RWState) (entry : String × Option String) :
    (appendActive s entry).activeBuffer = s.activeBuffer := by
  cases h : s.activeBuffer <;> simp [appendActive, h]

theorem keys_map_update {α : Type} (l : List (String × List α)) (b' b : String) (x : α) :
    (l.map (fun e => if e.1 == b' then (e.1, e.2 ++ [x]) else e)).any (fun e => e.1 == b) =
      l.any (fun e => e.1 == b) := by
  induction l with
  | nil => rfl
  | cons e es ih =>
    rw [List.map_cons, List.any_cons, List.any_cons, ih]
    by_cases he : (e.1 == b') = true
    · rw [if_pos he]
    · rw [if_neg he]

theorem appendActive_keys (s : RWState) (entry : String × Option String) (b : String) :
    (appendActive s entry).buffers.any (fun e => e.1 == b) =
      s.buffers.any (fun e => e.1 == b) := by
  cases h : s.activeBuffer with
  | none => simp [appendActive, h]
  | some b' =>
    simp only [appendActive, h]
    exact keys_map_update s.buffers b' b entry

theorem find_update {α : Type} (l : List (String × List α)) (b : String) (x : α) :
    l.any (fun e => e.1 == b) = true →
    (l.map (fun e => if e.1 == b then (e.1, e.2 ++ [x]) else e)).find? (fun e => e.1 == b) =
      (l.find? (fun e => e.1 == b)).map (fun e => (e.1, e.2 ++ [x])) := by
  induction l with
  | nil => intro h; simp at h
  | cons e es ih =>
    intro h
    by_cases he : (e.1 == b) = true
    · rw [List.map_cons, if_pos he]
      simp only [List.find?_cons, he]
      rfl
    · have he' : (e.1 == b) = false := (Bool.not_eq_true _).mp he
      have htail : es.any (fun e => e.1 == b) = true := by
        rw [List.any_cons, he'] at h
        simpa using h
      rw [List.map_cons, if_neg he]
      simp only [List.find?_cons, he']
      exact ih htail

theorem get_buffer_appendActive (s : RWState) (b : String) (entry : String × Option String)
    (hact : s.activeBuffer = some b)
    (hmem : s.buffers.any (fun e => e.1 == b) = true) :
    get_buffer (appendActive s entry) b = get_buffer s b ++ [entry] := by
  rcases List.any_eq_true.mp hmem with ⟨w, hw, hwb⟩
  cases hf : s.buffers.find? (fun e => e.1 == b) with
  | none =>
    exact absurd hwb (by simpa using List.find?_eq_none.mp hf w hw)
  | some e0 =>
    have h1 : (appendActive s entry).buffers.find? (fun e => e.1 == b) =
        some (e0.1, e0.2 ++ [entry]) := by
      simp only [appendActive, hact]
      rw [find_update s.buffers b entry hmem, hf]
      rfl
    simp only [get_buffer, h1, hf]

theorem dispatch_foldl_buffer :
    ∀ (gs : List (String × Option String)) (s : RWState) (b : String),
      s.activeBuffer = some b → s.buffers.any (fun e => e.1 == b) = true →
      get_buffer (gs.foldl (fun st g => appendActive st (dispatchEntry st.customPatterns g)) s) b =
        get_buffer s b ++ gs.map (dispatchEntry s.customPatterns) := by
  intro gs
  induction gs with
  | nil => intro s b _ _; simp
  | cons g gs ih =>
    intro s b hact hmem
    have hact1 : (appendActive s (dispatchEntry s.customPatterns g)).activeBuffer = some b := by
      rw [appendActive_activeBuffer, hact]
    have hmem1 : (appendActive s (dispatchEntry s.customPatterns g)).buffers.any
        (fun e => e.1 == b) = true := by
      rw [appendActive_keys, hmem]
    have hcp1 : (appendActive s (dispatchEntry s.customPatterns g)).customPatterns =
        s.customPatterns := appendActive_customPatterns s _
    rw [List.foldl_cons, ih _ b hact1 hmem1, hcp1,
      get_buffer_appendActive s b _ hact hmem, List.map_cons, List.append_assoc,
      List.singleton_append]

theorem dispatch_foldl_customPatterns :
    ∀ (gs : List (String × Option String)) (s : RWState),
      (gs.foldl (fun st g => appendActive st (dispatchEntry st.customPatterns g)) s).customPatterns =
        s.customPatterns := by
  intro gs
  induction gs with
  | nil => intro s; rfl
  | cons g gs ih => intro s; rw [List.foldl_cons, ih, appendActive_customPatterns]

theorem dispatch_foldl_activeBuffer :
    ∀ (gs : List (String × Option String)) (s : RWState),
      (gs.foldl (fun st g => appendActive st (dispatchEntry st.customPatterns g)) s).activeBuffer =
        s.activeBuffer := by
  intro gs
  induction gs with
  | nil => intro s; rfl
  | cons g gs ih => intro s; rw [List.foldl_cons, ih, appendActive_activeBuffer]

theorem dispatch_foldl_keys :
    ∀ (gs : List (String × Option String)) (s : RWState) (b : String),
      (gs.foldl (fun st g => appendActive st (dispatchEntry st.customPatterns g)) s).buffers.any
          (fun e => e.1 == b) =
        s.buffers.any (fun e => e.1 == b) := by
  intro gs
  induction gs with
  | nil => intro s b; rfl
  | cons g gs ih => intro s b; rw [List.foldl_cons, ih, appendActive_keys]

/-- Dispatch of one match touches the buffer dict only, never the
pattern registry. -/
theorem handleMatch_customPatterns (s : RWState) (m : MatchRes) :
    (handleMatch s m).customPatterns = s.customPatterns :=
  dispatch_foldl_customPatterns m.groupdict s

theorem handleMatch_activeBuffer (s : RWState) (m : MatchRes) :
    (handleMatch s m).activeBuffer = s.activeBuffer :=
  dispatch_foldl_activeBuffer m.groupdict s

theorem handleMatch_keys (s : RWState) (m : MatchRes) (b : String) :
    (handleMatch s m).buffers.any (fun e => e.1 == b) =
      s.buffers.any (fun e => e.1 == b) :=
  dispatch_foldl_keys m.groupdict s b

/-- C2 (amended): dispatch processes every named capture group present
in the match's `groupdict` — in definition order, including groups that
did not participate in the match, which appear with value `none` — and
appends one entry per group to the active buffer; a match whose
`groupdict` is empty (a pattern with no named groups) triggers no
dispatch at all and leaves the state untouched. -/
theorem claim_C2_amended :
    (∀ (s : RWState) (m : MatchRes) (b : String),
       s.activeBuffer = some b → s.buffers.any (fun e => e.1 == b) = true →
       get_buffer (handleMatch s m) b =
         get_buffer s b ++ m.groupdict.map (dispatchEntry s.customPatterns)) ∧
    (∀ (s : RWState) (m : MatchRes), m.groupdict = [] → handleMatch s m = s) := by
  constructor
  · intro s m b hact hmem
    exact dispatch_foldl_buffer m.groupdict s b hact hmem
  · intro s m h
    unfold handleMatch
    rw [h]
    rfl

/-- C2 (counterexample to the claim as stated): searching
`[[:a:]]|[[:b:]]` in `"y"` matches through placeholder `b` only, yet the
buffer receives an entry for the non-participating group of `a` as well
(with value `none`) — dispatch is not restricted to the groups that
participated in the match. -/
theorem claim_C2_counterexample :
    get_buffer (search engineC2 stateC2 "[[:a:]]|[[:b:]]" "y").1 "buf" =
      [("a", none), ("b", some "y")] ∧
    ("a", (none : Option String)) ∈
      get_buffer (search engineC2 stateC2 "[[:a:]]|[[:b:]]" "y").1 "buf" := by
  constructor
  · decide
  · decide

/-- C2 (witness): dispatch of a two-group match appends exactly the two
`groupdict` entries to the active buffer, and a match with empty
`groupdict` changes nothing. -/
theorem claim_C2_witness :
    get_buffer (handleMatch stateC2 { matched := "y", groupdict := [("a_1", none), ("b_1", some "y")] }) "buf" =
      get_buffer stateC2 "buf" ++
        [("a_1", (none : Option String)), ("b_1", some "y")].map (dispatchEntry stateC2.customPatterns) ∧
    handleMatch stateC2 { matched := "q", groupdict := [] } = stateC2 :=
  ⟨claim_C2_amended.1 stateC2 { matched := "y", groupdict := [("a_1", none), ("b_1", some "y")] }
      "buf" rfl (by decide),
   claim_C2_amended.2 stateC2 { matched := "q", groupdict := [] } rfl⟩

/-- C6: the callback loop of `_handle_match` applies exactly the first
rule whose callback is present, in registration order — the matched
alternative is not even an input of the computation — and leaves the
value unchanged when no rule of the placeholder has a callback; dispatch
uses this loop on the rule list of the placeholder recovered by
stripping the group-name suffix. -/
theorem claim_C6 :
    (∀ (rules : List Rule) (v : Option String),
       applyCbLoop rules v =
         match rules.find? (fun r => r.2.isSome) with
         | some (_, some cb) => cb v
         | _ => v) ∧
    (∀ (rules : List Rule) (v : Option String),
       (∀ r ∈ rules, r.2 = none) → applyCbLoop rules v = v) ∧
    (∀ (reg : Registry) (g : String × Option String),
       dispatchEntry reg g =
         (stripGroupSuffix g.1,
          applyCbLoop ((lookupReg reg (stripGroupSuffix g.1)).getD []) g.2)) := by
  refine ⟨?_, ?_, fun reg g => rfl⟩
  · intro rules v
    induction rules with
    | nil => rfl
    | cons r rest ih =>
      rcases r with ⟨p, cb?⟩
      cases cb? with
      | none => simpa [applyCbLoop, List.find?] using ih
      | some cb => simp [applyCbLoop, List.find?]
  · intro rules v h
    induction rules with
    | nil => rfl
    | cons r rest ih =>
      rcases r with ⟨p, cb?⟩
      have hr : cb? = none := h (p, cb?) (List.mem_cons_self _ _)
      subst hr
      exact ih (fun r hr => h r (List.mem_cons_of_mem _ hr))

/-- C6 (witness): with rules `[(p1, None), (p2, cbBrack), (p3, cbShout)]`
the loop applies `cbBrack` (the first rule with a callback), and a rule
list with no callbacks leaves the value unchanged. -/
theorem claim_C6_witness :
    applyCbLoop [("p1", none), ("p2", some cbBrack), ("p3", some cbShout)] (some "v") =
      cbBrack (some "v") ∧
    applyCbLoop [("q", (none : Option Callback))] (some "v") = some "v" := by
  constructor
  · rw [claim_C6.1 [("p1", none), ("p2", some cbBrack), ("p3", some cbShout)] (some "v")]
    rfl
  · exact claim_C6.2.1 [("q", none)] (some "v") (by simp)

/-- Dispatching one match appends exactly its `groupdict`-derived
entries to the active buffer. -/
theorem handleMatch_buffer (s : RWState) (m : MatchRes) (b : String)
    (hact : s.activeBuffer = some b)
    (hmem : s.buffers.any (fun e => e.1 == b) = true) :
    get_buffer (handleMatch s m) b =
      get_buffer s b ++ m.groupdict.map (dispatchEntry s.customPatterns) :=
  dispatch_foldl_buffer m.groupdict s b hact hmem

/-- Folding dispatch over a whole match list appends, per match in
order, all of its `groupdict`-derived entries to the active buffer. -/
theorem matches_foldl_buffer :
    ∀ (ms : List MatchRes) (s : RWState) (b : String),
      s.activeBuffer = some b → s.buffers.any (fun e => e.1 == b) = true →
      get_buffer (ms.foldl handleMatch s) b =
        get_buffer s b ++
          (ms.map (fun m => m.groupdict.map (dispatchEntry s.customPatterns))).flatten := by
  intro ms
  induction ms with
  | nil => intro s b _ _; simp
  | cons m ms ih =>
    intro s b hact hmem
    have hact1 : (handleMatch s m).activeBuffer = some b := by
      rw [handleMatch_activeBuffer, hact]
    have hmem1 : (handleMatch s m).buffers.any (fun e => e.1 == b) = true := by
      rw [handleMatch_keys]; exact hmem
    rw [List.foldl_cons, ih _ b hact1 hmem1, handleMatch_customPatterns,
      handleMatch_buffer s m b hact hmem, List.map_cons, List.flatten_cons,
      List.append_assoc]

/-- C8: when the pattern compiles, `finditer` returns the engine's full
match sequence, and the state it returns has already dispatched every
one of those matches — the active buffer contains the entries of all
matches at the moment `finditer` returns, independently of whether the
caller ever consumes the returned sequence (which is a pure value
here). -/
theorem claim_C8 :
    ∀ (e : Engine) (s : RWState) (pattern string p b : String),
      s.activeBuffer = some b → s.buffers.any (fun x => x.1 == b) = true →
      compileRW e s pattern = .ok p →
      (finditer e s pattern string).2 = .ok (e.finditerE p string) ∧
      get_buffer (finditer e s pattern string).1 b =
        get_buffer s b ++
          ((e.finditerE p string).map
            (fun m => m.groupdict.map (dispatchEntry s.customPatterns))).flatten := by
  intro e s pattern string p b hact hmem hcomp
  unfold finditer
  rw [hcomp]
  exact ⟨rfl, matches_foldl_buffer (e.finditerE p string) s b hact hmem⟩

/-- C8 (witness): after `finditer` over `"x x"` returns, the active
buffer already holds one entry per match. -/
theorem claim_C8_witness :
    (finditer engineC8 stateC8 "[[:d:]]" "x x").2 =
      .ok (engineC8.finditerE "(?P<d_1>x)" "x x") ∧
    get_buffer (finditer engineC8 stateC8 "[[:d:]]" "x x").1 "buf" =
      get_buffer stateC8 "buf" ++
        ((engineC8.finditerE "(?P<d_1>x)" "x x").map
          (fun m => m.groupdict.map (dispatchEntry stateC8.customPatterns))).flatten :=
  claim_C8 engineC8 stateC8 "[[:d:]]" "x x" "(?P<d_1>x)" "buf" rfl (by decide) (by rfl)

/-- C9: `recursive_search` is polymorphic over the data argument — a
list concatenates the results of its elements in order; a mapping
recurses into values only, so its result never depends on the keys, and
concatenates in iteration order; a text value contributes the result of
a single `search` — and over the nested mapping
`{"level1": [{"level2": {"email": "deep@example.com"}}]}` with the
`email` placeholder registered it returns exactly one match, whose
captured text is `deep@example.com` (the engine hypotheses record what
`re` does with the expanded email pattern on that one string, the only
string the traversal ever searches). -/
theorem claim_C9 :
    (∀ (e : Engine) (pat : String) (hd tl : PyData) (s s1 s2 : RWState)
       (ms1 ms2 : List MatchRes),
       recursive_search e pat hd s = (s1, .ok ms1) →
       recursive_search e pat tl s1 = (s2, .ok ms2) →
       recursive_search e pat (.listCons hd tl) s = (s2, .ok (ms1 ++ ms2))) ∧
    (∀ (e : Engine) (pat : String) (k k' : String) (v tl : PyData) (s : RWState),
       recursive_search e pat (.dictCons k v tl) s =
         recursive_search e pat (.dictCons k' v tl) s) ∧
    (∀ (e : Engine) (pat : String) (k : String) (v tl : PyData) (s s1 s2 : RWState)
       (ms1 ms2 : List MatchRes),
       recursive_search e pat v s = (s1, .ok ms1) →
       recursive_search e pat tl s1 = (s2, .ok ms2) →
       recursive_search e pat (.dictCons k v tl) s = (s2, .ok (ms1 ++ ms2))) ∧
    (∀ (e : Engine) (pat t : String) (s s' : RWState) (m? : Option MatchRes),
       search e s pat t = (s', .ok m?) →
       recursive_search e pat (.str t) s = (s', .ok m?.toList)) ∧
    (∀ (e : Engine) (s : RWState),
       s.customPatterns = regEmail →
       e.compileOk emailExpanded = true →
       e.searchE emailExpanded "deep@example.com" = some emailMatch →
       (recursive_search e "[[:email:]]" nestedData s).2 = .ok [emailMatch] ∧
       emailMatch.matched = "deep@example.com") := by
  refine ⟨?_, ?_, ?_, ?_, ?_⟩
  · intro e pat hd tl s s1 s2 ms1 ms2 h1 h2
    simp [recursive_search, h1, h2]
  · intro e pat k k' v tl s
    simp only [recursive_search]
  · intro e pat k v tl s s1 s2 ms1 ms2 h1 h2
    simp [recursive_search, h1, h2]
  · intro e pat t s s' m? h
    simp only [recursive_search]
    rw [h]
    cases m? <;> rfl
  · intro e s hs hok hsrch
    have hpp : processPattern s.customPatterns "[[:email:]]" =
        .ok (emailExpanded, [("email", "email_1")]) := by
      rw [hs]; rfl
    have hcomp : compileRW e s "[[:email:]]" = .ok emailExpanded := by
      unfold compileRW
      rw [hpp]
      simp [hok]
    have hsearch : search e s "[[:email:]]" "deep@example.com" =
        (handleMatch s emailMatch, .ok (some emailMatch)) := by
      unfold search
      rw [hcomp]
      simp only [hsrch]
    refine ⟨?_, rfl⟩
    simp [nestedData, recursive_search, hsearch]

/-- C9 (witness): the concrete traversal of the nested mapping returns
exactly the one deep email match. -/
theorem claim_C9_witness :
    (recursive_search engineC9 "[[:email:]]" nestedData stateC9).2 = .ok [emailMatch] ∧
    emailMatch.matched = "deep@example.com" :=
  claim_C9.2.2.2.2 engineC9 stateC9 rfl rfl (by rfl)

/-- Scanning and expansion walk the same token sequence: if some token
name of the text is unregistered, expansion raises `re.error` carrying
an unregistered name (the first one scanned). -/
theorem expand_err_of_undef (reg : Registry) :
    ∀ (fuel : Nat) (counts : String → Nat) (s : List Char),
      (∃ nm ∈ scanNamesF fuel s, lookupReg reg nm = none) →
      ∃ nm', lookupReg reg nm' = none ∧
        expandCoreF reg fuel counts s = .error (.reError nm') := by
  intro fuel
  induction fuel with
  | zero =>
    intro counts s h
    simp [scanNamesF] at h
  | succ fuel ih =>
    intro counts s h
    cases hft : findTok s with
    | none =>
      rw [scanNamesF, hft] at h
      simp at h
    | some x =>
      rcases x with ⟨p, n, r⟩
      rw [scanNamesF, hft] at h
      cases hlk : lookupReg reg (String.mk n) with
      | none =>
        refine ⟨String.mk n, hlk, ?_⟩
        rw [expandCoreF, hft]
        simp only [hlk]
      | some rules =>
        have h' : ∃ nm ∈ scanNamesF fuel r, lookupReg reg nm = none := by
          rcases h with ⟨nm, hmem, hnone⟩
          rcases List.mem_cons.mp hmem with rfl | hm
          · rw [hlk] at hnone; cases hnone
          · exact ⟨nm, hm, hnone⟩
        rcases ih (countsUpd counts (String.mk n) (counts (String.mk n) + 1)) r h' with
          ⟨nm', hnone', herr⟩
        refine ⟨nm', hnone', ?_⟩
        rw [expandCoreF, hft]
        simp only [hlk, herr]

/-- A pattern that references an unregistered placeholder makes
`_process_pattern` raise `re.error` for an unregistered name. -/
theorem processPattern_err_of_undef (reg : Registry) (pattern : String) :
    (∃ nm ∈ scanNames pattern, lookupReg reg nm = none) →
    ∃ nm', lookupReg reg nm' = none ∧
      processPattern reg pattern = .error (.reError nm') := by
  intro h
  rcases expand_err_of_undef reg (pattern.data.length + 1) (fun _ => 0) pattern.data h with
    ⟨nm', hn, he⟩
  exact ⟨nm', hn, by rw [processPattern, he]⟩

/-- C4: if a pattern contains a `[[:name:]]` reference whose name is not
registered, then every operation that expands the pattern — `search`,
`match`, `findall`, `finditer`, `sub` and `compile` — fails with the
engine's error class `re.error` (raised by `_process_pattern` itself)
and leaves the state unchanged; no other error class is raised. -/
theorem claim_C4 :
    ∀ (e : Engine) (s : RWState) (pattern : String),
      (∃ nm ∈ scanNames pattern, lookupReg s.customPatterns nm = none) →
      ∃ nm', lookupReg s.customPatterns nm' = none ∧
        (∀ string, search e s pattern string = (s, .error (.reError nm'))) ∧
        (∀ string, matchStart e s pattern string = (s, .error (.reError nm'))) ∧
        (∀ string, findall e s pattern string = (s, .error (.reError nm'))) ∧
        (∀ string, finditer e s pattern string = (s, .error (.reError nm'))) ∧
        (∀ repl string count, sub e s pattern repl string count = (s, .error (.reError nm'))) ∧
        compileOp e s pattern = (s, .error (.reError nm')) := by
  intro e s pattern h
  rcases processPattern_err_of_undef s.customPatterns pattern h with ⟨nm', hn, hpp⟩
  have hcomp : compileRW e s pattern = .error (.reError nm') := by
    unfold compileRW
    rw [hpp]
  refine ⟨nm', hn, ?_, ?_, ?_, ?_, ?_, ?_⟩
  · intro string; unfold search; rw [hcomp]
  · intro string; unfold matchStart; rw [hcomp]
  · intro string; unfold findall; rw [hcomp]
  · intro string; unfold finditer; rw [hcomp]
  · intro repl string count; unfold sub; rw [hcomp]
  · unfold compileOp; rw [hcomp]

/-- C4 (witness): with an empty registry, `[[:x:]]` makes all six
operations fail with `re.error`. -/
theorem claim_C4_witness :
    ∃ nm', lookupReg initState.customPatterns nm' = none ∧
      (∀ string, search engineTriv initState "[[:x:]]" string =
        (initState, .error (.reError nm'))) ∧
      (∀ string, matchStart engineTriv initState "[[:x:]]" string =
        (initState, .error (.reError nm'))) ∧
      (∀ string, findall engineTriv initState "[[:x:]]" string =
        (initState, .error (.reError nm'))) ∧
      (∀ string, finditer engineTriv initState "[[:x:]]" string =
        (initState, .error (.reError nm'))) ∧
      (∀ repl string count, sub engineTriv initState "[[:x:]]" repl string count =
        (initState, .error (.reError nm'))) ∧
      compileOp engineTriv initState "[[:x:]]" = (initState, .error (.reError nm')) :=
  claim_C4 engineTriv initState "[[:x:]]" ⟨"x", by decide, rfl⟩

theorem digitChar_isDigit (k : Nat) (h : k < 10) : (digitChar k).isDigit = true := by
  interval_cases k <;> decide

theorem natReprF_digits :
    ∀ (fuel n : Nat), ∀ c ∈ natReprF fuel n, c.isDigit = true := by
  intro fuel
  induction fuel with
  | zero => intro n c hc; cases hc
  | succ fuel ih =>
    intro n c hc
    by_cases h : n < 10
    · rw [natReprF, if_pos h] at hc
      rcases List.mem_singleton.mp hc with rfl
      exact digitChar_isDigit n h
    · rw [natReprF, if_neg h] at hc
      rcases List.mem_append.mp hc with hm | hm
      · exact ih (n / 10) c hm
      · rcases List.mem_singleton.mp hm with rfl
        exact digitChar_isDigit (n % 10) (Nat.mod_lt _ (by omega))

theorem natReprF_no_underscore (fuel n : Nat) : '_' ∉ natReprF fuel n := by
  intro hmem
  have := natReprF_digits fuel n '_' hmem
  simp at this

theorem digitVal_digitChar (k : Nat) (h : k < 10) : digitVal (digitChar k) = k := by
  interval_cases k <;> decide

theorem valOf_natReprF : ∀ (fuel n : Nat), n < fuel → valOf (natReprF fuel n) = n := by
  intro fuel
  induction fuel with
  | zero => intro n h; omega
  | succ fuel ih =>
    intro n hn
    by_cases h : n < 10
    · rw [natReprF, if_pos h]
      show 10 * 0 + digitVal (digitChar n) = n
      rw [digitVal_digitChar n h]
      omega
    · rw [natReprF, if_neg h]
      have hdiv : n / 10 < fuel := by
        have h1 : n / 10 < n := Nat.div_lt_self (by omega) (by omega)
        omega
      show List.foldl (fun a c => 10 * a + digitVal c) 0
        (natReprF fuel (n / 10) ++ [digitChar (n % 10)]) = n
      rw [List.foldl_append]
      have hv := ih (n / 10) hdiv
      show 10 * valOf (natReprF fuel (n / 10)) + digitVal (digitChar (n % 10)) = n
      rw [hv, digitVal_digitChar (n % 10) (Nat.mod_lt _ (by omega))]
      omega

theorem natRepr_inj (i j : Nat) (h : natRepr i = natRepr j) : i = j := by
  have hl : natReprF (i + 1) i = natReprF (j + 1) j := by
    have := congrArg String.data h
    simpa [natRepr] using this
  have h2 := congrArg valOf hl
  rw [valOf_natReprF (i + 1) i (Nat.lt_succ_self i),
    valOf_natReprF (j + 1) j (Nat.lt_succ_self j)] at h2
  exact h2

theorem last_sep_eq :
    ∀ (l1 d1 l2 d2 : List Char), '_' ∉ d1 → '_' ∉ d2 →
    l1 ++ '_' :: d1 = l2 ++ '_' :: d2 → l1 = l2 ∧ d1 = d2 := by
  intro l1
  induction l1 with
  | nil =>
    intro d1 l2 d2 h1 h2 heq
    cases l2 with
    | nil =>
      refine ⟨rfl, ?_⟩
      simpa using heq
    | cons c cs =>
      exfalso
      rw [List.nil_append, List.cons_append] at heq
      rcases List.cons.inj heq with ⟨hc, htl⟩
      apply h1
      rw [htl]
      exact List.mem_append_right cs (List.mem_cons_self _ _)
  | cons c cs ih =>
    intro d1 l2 d2 h1 h2 heq
    cases l2 with
    | nil =>
      exfalso
      rw [List.nil_append, List.cons_append] at heq
      rcases List.cons.inj heq with ⟨hc, htl⟩
      apply h2
      rw [← htl]
      exact List.mem_append_right cs (List.mem_cons_self _ _)
    | cons c' cs' =>
      rw [List.cons_append, List.cons_append] at heq
      rcases List.cons.inj heq with ⟨hc, htl⟩
      rcases ih d1 cs' d2 h1 h2 htl with ⟨hl, hd⟩
      exact ⟨by rw [hc, hl], hd⟩

/-- Group names synthesized by `_process_pattern` decompose uniquely: a
name determines its placeholder and occurrence number, because the
decimal suffix contains no underscore. -/
theorem encode_inj (p q : String) (i j : Nat)
    (h : p ++ "_" ++ natRepr i = q ++ "_" ++ natRepr j) : p = q ∧ i = j := by
  have hd : p.data ++ '_' :: natReprF (i + 1) i = q.data ++ '_' :: natReprF (j + 1) j := by
    have h0 := congrArg String.data h
    rw [String.data_append (p ++ "_") (natRepr i), String.data_append p "_",
      String.data_append (q ++ "_") (natRepr j), String.data_append q "_"] at h0
    simpa [natRepr] using h0
  rcases last_sep_eq p.data (natReprF (i + 1) i) q.data (natReprF (j + 1) j)
    (natReprF_no_underscore _ _) (natReprF_no_underscore _ _) hd with ⟨hpq, hij⟩
  constructor
  · cases p; cases q; exact congrArg String.mk hpq
  · apply natRepr_inj
    show String.mk (natReprF (i + 1) i) = String.mk (natReprF (j + 1) j)
    rw [hij]

theorem expand_numbered (reg : Registry) :
    ∀ (fuel : Nat) (c : String → Nat) (s out : List Char) (tr : List (String × String)),
      expandCoreF reg fuel c s = .ok (out, tr) → Numbered c tr := by
  intro fuel
  induction fuel with
  | zero =>
    intro c s out tr h
    rw [expandCoreF] at h
    cases h
  | succ fuel ih =>
    intro c s out tr h
    cases hft : findTok s with
    | none =>
      have hstep : expandCoreF reg (fuel + 1) c s = .ok (s, []) := by
        rw [expandCoreF, hft]
      rw [hstep] at h
      have htr : ([] : List (String × String)) = tr :=
        congrArg Prod.snd (Except.ok.inj h)
      rw [← htr]
      exact trivial
    | some x =>
      rcases x with ⟨p, n, r⟩
      cases hlk : lookupReg reg (String.mk n) with
      | none =>
        have hstep : expandCoreF reg (fuel + 1) c s = .error (.reError (String.mk n)) := by
          rw [expandCoreF, hft]
          simp only [hlk]
        rw [hstep] at h
        cases h
      | some rules =>
        cases hrec : expandCoreF reg fuel
            (countsUpd c (String.mk n) (c (String.mk n) + 1)) r with
        | error e =>
          have hstep : expandCoreF reg (fuel + 1) c s = .error e := by
            rw [expandCoreF, hft]
            simp only [hlk, hrec]
          rw [hstep] at h
          cases h
        | ok pr =>
          rcases pr with ⟨out', tr'⟩
          have hstep : expandCoreF reg (fuel + 1) c s =
              .ok (p ++ ("(?P<" ++ (String.mk n ++ "_" ++ natRepr (c (String.mk n) + 1)) ++
                    ">" ++ combinedOf rules ++ ")").data ++ out',
                (String.mk n, String.mk n ++ "_" ++ natRepr (c (String.mk n) + 1)) :: tr') := by
            rw [expandCoreF, hft]
            simp only [hlk, hrec]
          rw [hstep] at h
          have htr : (String.mk n, String.mk n ++ "_" ++ natRepr (c (String.mk n) + 1)) :: tr' =
              tr := congrArg Prod.snd (Except.ok.inj h)
          rw [← htr]
          exact ⟨rfl, ih _ _ _ _ hrec⟩

theorem numbered_form :
    ∀ (tr : List (String × String)) (c : String → Nat),
      Numbered c tr → ∀ x ∈ tr, ∃ k, c x.1 < k ∧ x.2 = x.1 ++ "_" ++ natRepr k := by
  intro tr
  induction tr with
  | nil => intro c _ x hx; cases hx
  | cons hd tl ih =>
    intro c hnum x hx
    rcases hd with ⟨ph, g⟩
    rcases hnum with ⟨hg, htl⟩
    rcases List.mem_cons.mp hx with rfl | hx'
    · exact ⟨c ph + 1, Nat.lt_succ_self _, hg⟩
    · rcases ih _ htl x hx' with ⟨k, hk, hform⟩
      refine ⟨k, ?_, hform⟩
      have hmono : c x.1 ≤ countsUpd c ph (c ph + 1) x.1 := by
        by_cases hb : (x.1 == ph) = true
        · have hx1 : x.1 = ph := by simpa using hb
          simp [countsUpd, hb, hx1]
        · simp [countsUpd, hb]
      omega

theorem numbered_nodup :
    ∀ (tr : List (String × String)) (c : String → Nat),
      Numbered c tr → (tr.map (fun x => x.2)).Nodup := by
  intro tr
  induction tr with
  | nil => intro c _; simp
  | cons hd tl ih =>
    intro c hnum
    rcases hd with ⟨ph, g⟩
    rcases hnum with ⟨hg, htl⟩
    rw [List.map_cons, List.nodup_cons]
    constructor
    · intro hmem
      rcases List.mem_map.mp hmem with ⟨x, hx, hx2⟩
      rcases numbered_form tl _ htl x hx with ⟨k, hk, hform⟩
      have heq : x.1 ++ "_" ++ natRepr k = ph ++ "_" ++ natRepr (c ph + 1) := by
        rw [← hform, hx2, hg]
      rcases encode_inj _ _ _ _ heq with ⟨hq, hkk⟩
      rw [hq] at hk
      have hupd : countsUpd c ph (c ph + 1) ph = c ph + 1 := by simp [countsUpd]
      omega
    · exact ih _ htl

/-- C5: whenever `_process_pattern` succeeds, the synthesized group
names follow the per-placeholder occurrence numbering (starting from
all-zero counters, so the k-th occurrence of placeholder `p` becomes the
group `p_k`), and all synthesized group names of one expansion are
pairwise distinct — also across distinct placeholders, since a name
determines its placeholder and occurrence number. -/
theorem claim_C5 :
    ∀ (reg : Registry) (pattern out : String) (tr : List (String × String)),
      processPattern reg pattern = .ok (out, tr) →
      Numbered (fun _ => 0) tr ∧ (tr.map (fun x => x.2)).Nodup := by
  intro reg pattern out tr h
  cases hexp : expandCoreF reg (pattern.data.length + 1) (fun _ => 0) pattern.data with
  | error e => rw [processPattern, hexp] at h; cases h
  | ok pr =>
    rcases pr with ⟨o, t⟩
    rw [processPattern, hexp] at h
    have htr : t = tr := congrArg Prod.snd (Except.ok.inj h)
    rw [← htr]
    have hnum := expand_numbered reg _ _ _ _ _ hexp
    exact ⟨hnum, numbered_nodup t _ hnum⟩

/-- C5 (witness): on `[[:a:]] [[:a:]] [[:b:]]` under a registry holding
`a` and `b`, expansion numbers the occurrences `a_1`, `a_2`, `b_1` and
the three names are pairwise distinct. -/
theorem claim_C5_witness :
    Numbered (fun _ => 0) [("a", "a_1"), ("a", "a_2"), ("b", "b_1")] ∧
    ([("a", "a_1"), ("a", "a_2"), ("b", "b_1")].map
      (fun x : String × String => x.2)).Nodup :=
  claim_C5 regC2 "[[:a:]] [[:a:]] [[:b:]]" "(?P<a_1>x) (?P<a_2>x) (?P<b_1>y)"
    [("a", "a_1"), ("a", "a_2"), ("b", "b_1")] (by rfl)

theorem registryAppend_inv (reg : Registry) (ph : String) (r : Rule)
    (h : RegInv reg) : RegInv (registryAppend reg ph r) := by
  intro entry hmem
  unfold registryAppend at hmem
  by_cases hex : reg.any (fun e => e.1 == ph)
  · rw [if_pos hex] at hmem
    rcases List.mem_map.mp hmem with ⟨e0, he0, heq⟩
    by_cases hk : (e0.1 == ph) = true
    · rw [if_pos hk] at heq
      rw [← heq]
      simp
    · rw [if_neg hk] at heq
      rw [← heq]
      exact h e0 he0
  · rw [if_neg hex] at hmem
    rcases List.mem_append.mp hmem with hm | hm
    · exact h entry hm
    · rcases List.mem_singleton.mp hm with rfl
      simp

theorem addPatternList_inv (e : Engine) (ph : String) (cb : Option Callback) :
    ∀ (ps : List String) (reg : Registry), RegInv reg →
      RegInv (addPatternList e ph cb reg ps).1 := by
  intro ps
  induction ps with
  | nil => intro reg h; exact h
  | cons p ps ih =>
    intro reg h
    by_cases hc : e.compileOk p
    · rw [addPatternList, if_pos hc]
      exact ih _ (registryAppend_inv reg ph (p, cb) h)
    · rw [addPatternList, if_neg hc]
      exact h

theorem add_pattern_inv (e : Engine) (s : RWState) (ph : String) (repl : Replacement)
    (cb : Option Callback) (h : RegInv s.customPatterns) :
    RegInv (add_pattern e s ph repl cb).1.customPatterns := by
  by_cases hid : isidentifier ph
  · cases repl with
    | single p =>
      cases hv : validatePattern e p with
      | some err =>
        simp only [add_pattern, hid, Bool.not_true, Bool.false_eq_true, if_false, hv]
        exact h
      | none =>
        simp only [add_pattern, hid, Bool.not_true, Bool.false_eq_true, if_false, hv]
        exact registryAppend_inv s.customPatterns ph (p, cb) h
    | list ps =>
      cases ps with
      | nil =>
        simp only [add_pattern, hid, Bool.not_true, Bool.false_eq_true, if_false]
        exact h
      | cons p ps' =>
        rcases hap : addPatternList e ph cb s.customPatterns (p :: ps') with ⟨reg', err'⟩
        simp only [add_pattern, hid, Bool.not_true, Bool.false_eq_true, if_false, hap]
        have h2 := addPatternList_inv e ph cb (p :: ps') s.customPatterns h
        rw [hap] at h2
        exact h2
  · have hid' : isidentifier ph = false := (Bool.not_eq_true _).mp hid
    simp only [add_pattern, hid', Bool.not_false, if_true]
    exact h

theorem add_buffer_customPatterns (s : RWState) (name : String) :
    (add_buffer s name).customPatterns = s.customPatterns := by
  unfold add_buffer
  split <;> rfl

theorem foldl_handleMatch_customPatterns :
    ∀ (ms : List MatchRes) (s : RWState),
      (ms.foldl handleMatch s).customPatterns = s.customPatterns := by
  intro ms
  induction ms with
  | nil => intro s; rfl
  | cons m ms ih => intro s; rw [List.foldl_cons, ih, handleMatch_customPatterns]

theorem search_customPatterns (e : Engine) (s : RWState) (pattern string : String) :
    (search e s pattern string).1.customPatterns = s.customPatterns := by
  cases hc : compileRW e s pattern with
  | error err => simp only [search, hc]
  | ok p =>
    cases hm : e.searchE p string with
    | some m =>
      simp only [search, hc, hm]
      exact handleMatch_customPatterns s m
    | none => simp only [search, hc, hm]

theorem matchStart_customPatterns (e : Engine) (s : RWState) (pattern string : String) :
    (matchStart e s pattern string).1.customPatterns = s.customPatterns := by
  cases hc : compileRW e s pattern with
  | error err => simp only [matchStart, hc]
  | ok p =>
    cases hm : e.matchE p string with
    | some m =>
      simp only [matchStart, hc, hm]
      exact handleMatch_customPatterns s m
    | none => simp only [matchStart, hc, hm]

theorem findall_customPatterns (e : Engine) (s : RWState) (pattern string : String) :
    (findall e s pattern string).1.customPatterns = s.customPatterns := by
  cases hc : compileRW e s pattern with
  | error err => simp only [findall, hc]
  | ok p =>
    simp only [findall, hc]
    exact foldl_handleMatch_customPatterns (e.finditerE p string) s

theorem finditer_customPatterns (e : Engine) (s : RWState) (pattern string : String) :
    (finditer e s pattern string).1.customPatterns = s.customPatterns := by
  cases hc : compileRW e s pattern with
  | error err => simp only [finditer, hc]
  | ok p =>
    simp only [finditer, hc]
    exact foldl_handleMatch_customPatterns (e.finditerE p string) s

theorem sub_customPatterns (e : Engine) (s : RWState) (pattern repl string : String)
    (count : Nat) : (sub e s pattern repl string count).1.customPatterns = s.customPatterns := by
  cases hc : compileRW e s pattern with
  | error err => simp only [sub, hc]
  | ok p => simp only [sub, hc]

theorem recursive_search_customPatterns (e : Engine) (pattern : String) :
    ∀ (d : PyData) (s : RWState),
      (recursive_search e pattern d s).1.customPatterns = s.customPatterns := by
  intro d
  induction d with
  | str t =>
    intro s
    rcases hsr : search e s pattern t with ⟨s1, res⟩
    have hcp : s1.customPatterns = s.customPatterns := by
      have h0 := search_customPatterns e s pattern t
      rw [hsr] at h0
      exact h0
    cases res with
    | error err => simp only [recursive_search, hsr]; exact hcp
    | ok m? =>
      cases m? with
      | some m => simp only [recursive_search, hsr]; exact hcp
      | none => simp only [recursive_search, hsr]; exact hcp
  | listNil => intro s; rfl
  | listCons hd tl ihhd ihtl =>
    intro s
    rcases hr1 : recursive_search e pattern hd s with ⟨s1, res1⟩
    have hcp1 : s1.customPatterns = s.customPatterns := by
      have h0 := ihhd s
      rw [hr1] at h0
      exact h0
    cases res1 with
    | error err => simp only [recursive_search, hr1]; exact hcp1
    | ok ms1 =>
      rcases hr2 : recursive_search e pattern tl s1 with ⟨s2, res2⟩
      have hcp2 : s2.customPatterns = s1.customPatterns := by
        have h0 := ihtl s1
        rw [hr2] at h0
        exact h0
      cases res2 with
      | error err => simp only [recursive_search, hr1, hr2]; rw [hcp2, hcp1]
      | ok ms2 => simp only [recursive_search, hr1, hr2]; rw [hcp2, hcp1]
  | dictNil => intro s; rfl
  | dictCons k v tl ihv ihtl =>
    intro s
    rcases hr1 : recursive_search e pattern v s with ⟨s1, res1⟩
    have hcp1 : s1.customPatterns = s.customPatterns := by
      have h0 := ihv s
      rw [hr1] at h0
      exact h0
    cases res1 with
    | error err => simp only [recursive_search, hr1]; exact hcp1
    | ok ms1 =>
      rcases hr2 : recursive_search e pattern tl s1 with ⟨s2, res2⟩
      have hcp2 : s2.customPatterns = s1.customPatterns := by
        have h0 := ihtl s1
        rw [hr2] at h0
        exact h0
      cases res2 with
      | error err => simp only [recursive_search, hr1, hr2]; rw [hcp2, hcp1]
      | ok ms2 => simp only [recursive_search, hr1, hr2]; rw [hcp2, hcp1]
  | other => intro s; rfl

theorem lookupReg_inv (reg : Registry) (k : String) (rules : List Rule)
    (hinv : RegInv reg) (h : lookupReg reg k = some rules) : rules ≠ [] := by
  unfold lookupReg at h
  cases hf : reg.find? (fun e => e.1 == k) with
  | none => rw [hf] at h; cases h
  | some e0 =>
    rw [hf] at h
    have he : e0 ∈ reg := List.mem_of_find?_eq_some hf
    have h2 : e0.2 = rules := Option.some.inj h
    rw [← h2]
    exact hinv e0 he

theorem combined_eq_of_ne (rules : List Rule) (h : rules ≠ []) :
    combinedNE rules = combinedOf rules := by
  cases rules with
  | nil => exact absurd rfl h
  | cons r rs => rfl

theorem expandNE_eq (reg : Registry) (hinv : RegInv reg) :
    ∀ (fuel : Nat) (c : String → Nat) (s : List Char),
      expandCoreNEF reg fuel c s = expandCoreF reg fuel c s := by
  intro fuel
  induction fuel with
  | zero => intro c s; rfl
  | succ fuel ih =>
    intro c s
    cases hft : findTok s with
    | none => rw [expandCoreNEF, expandCoreF, hft]
    | some x =>
      rcases x with ⟨p, n, r⟩
      rw [expandCoreNEF, expandCoreF, hft]
      cases hlk : lookupReg reg (String.mk n) with
      | none => simp only [hlk]
      | some rules =>
        have hcomb := combined_eq_of_ne rules (lookupReg_inv reg (String.mk n) rules hinv hlk)
        simp only [hlk, hcomb, ih]

theorem processPatternNE_eq (reg : Registry) (hinv : RegInv reg) (pattern : String) :
    processPatternNE reg pattern = processPattern reg pattern := by
  unfold processPatternNE processPattern
  rw [expandNE_eq reg hinv]

/-- C10: in every state reachable through the public API, every
registered placeholder owns a non-empty rule list (`add_pattern` rejects
an empty list and creates an entry only by appending a validated rule,
and no other operation touches the registry); consequently expansion in
a reachable state coincides with the variant whose `(?!.)`
empty-rule-list branch is removed — that branch is unreachable. -/
theorem claim_C10 :
    (∀ s, Reachable s → RegInv s.customPatterns) ∧
    (∀ s, Reachable s → ∀ pattern,
      processPatternNE s.customPatterns pattern = processPattern s.customPatterns pattern) := by
  have hinv : ∀ s, Reachable s → RegInv s.customPatterns := by
    intro s h
    induction h with
    | init => intro entry hmem; cases hmem
    | stepAddPattern s e ph repl cb _ ih => exact add_pattern_inv e s ph repl cb ih
    | stepAddBuffer s name _ ih => rw [add_buffer_customPatterns]; exact ih
    | stepBufferEnter s name _ ih => exact ih
    | stepBufferExit s saved _ ih => exact ih
    | stepSearch s e pattern string _ ih => rw [search_customPatterns]; exact ih
    | stepMatch s e pattern string _ ih => rw [matchStart_customPatterns]; exact ih
    | stepFindall s e pattern string _ ih => rw [findall_customPatterns]; exact ih
    | stepFinditer s e pattern string _ ih => rw [finditer_customPatterns]; exact ih
    | stepSub s e pattern repl string count _ ih => rw [sub_customPatterns]; exact ih
    | stepCompile s e pattern _ ih => exact ih
    | stepRecursive s e pattern d _ ih => rw [recursive_search_customPatterns]; exact ih
  exact ⟨hinv, fun s h pattern => processPatternNE_eq _ (hinv s h) pattern⟩

/-- C10 (witness): after registering `a`, the state is reachable, its
registry satisfies the invariant, and expansion of `[[:a:]]` agrees
with the guard-free variant. -/
theorem claim_C10_witness :
    RegInv stateC10.customPatterns ∧
    processPatternNE stateC10.customPatterns "[[:a:]]" =
      processPattern stateC10.customPatterns "[[:a:]]" :=
  ⟨claim_C10.1 stateC10
      (Reachable.stepAddPattern initState engineTriv "a" (.single "x") none Reachable.init),
   claim_C10.2 stateC10
      (Reachable.stepAddPattern initState engineTriv "a" (.single "x") none Reachable.init)
      "[[:a:]]"⟩

end Rex
